import Mathlib

/-!
Verification of the cf-abacus resilience primitives: the bounded-concurrency
throttle (src/lib/utils/throttle/index.js), the retry-with-backoff wrapper
(retry module source shipped alongside the collector test), and the
fault-isolating router (src/lib/utils/router/index.js).

The JavaScript source is shallowly embedded: the throttle's mutable closure
state (running counter, FIFO queue, process.nextTick deferrals) becomes an
explicit state type with a step function over submission / completion / tick
events; the router's callbackify becomes a function from a handler outcome to
the observable effects on the response object and the next() continuation;
the retry wrapper becomes a recursion over per-attempt outcomes.
-/

namespace Abacus

/-! ## JavaScript value model (truthiness) -/

/-- A JavaScript value, as far as truthiness and identity matter for the
router: undefined, null, booleans, numbers, strings, and (opaque) objects. -/
inductive JVal where
  | undef : JVal
  | null : JVal
  | bool (b : Bool) : JVal
  | num (n : Int) : JVal
  | str (s : String) : JVal
  | obj (tag : Nat) : JVal
  deriving DecidableEq, Repr

/-- JavaScript truthiness of a value: undefined, null, false, 0 and the
empty string are falsy; objects are always truthy. -/
def JVal.truthy : JVal → Bool
  | .undef => false
  | .null => false
  | .bool b => b
  | .num n => n != 0
  | .str s => s != ""
  | .obj _ => true

namespace Throttle

/-- Identifier of one call submitted to a throttled function. -/
abbrev CallId := Nat

/-- The closure state of one `throttlefn(fn, max)` instance, embedded from
src/lib/utils/throttle/index.js.  `running` and `queue` are the source's
mutable variables; `pending` is the process.nextTick queue holding dequeued
calls scheduled but not yet run.  `inflight`, `started` and `log` are ghost
instrumentation: the calls whose intercepting callback has not fired yet, the
order in which calls actually reached `fn.apply`, and for each completion the
running count observed when the caller's callback `cb` was invoked paired
with the running count after the completion handler finished. -/
structure State where
  max : Nat
  running : Nat
  queue : List CallId
  pending : List CallId
  inflight : List CallId
  started : List CallId
  log : List (Nat × Nat)
  deriving DecidableEq, Repr

/-- Initial closure state of `throttlefn(fn, max)`: running = 0, empty queue. -/
def init (max : Nat) : State :=
  { max := max, running := 0, queue := [], pending := [],
    inflight := [], started := [], log := [] }

/-- The source's `run(callargs)`: if `running === max` push the call onto the
queue, otherwise increment `running` and invoke `fn` (ghost-recorded in
`inflight` and `started`). -/
def runCall (s : State) (c : CallId) : State :=
  if s.running = s.max then
    { s with queue := s.queue ++ [c] }
  else
    { s with running := s.running + 1,
             inflight := s.inflight ++ [c],
             started := s.started ++ [c] }

/-- Events driving one throttled function instance.
`submit c` is an external invocation of the throttled wrapper.
`complete c resub cbThrows` is `fn` finishing call `c` and invoking the
intercepting callback: the caller's callback `cb` runs first and may itself
synchronously submit a new call (`resub`) and may throw (`cbThrows`); only on
its normal return does the source decrement `running` and move the oldest
queued call to the nextTick queue.  `tick` is process.nextTick firing the
oldest scheduled call. -/
inductive Event where
  | submit (c : CallId) : Event
  | complete (c : CallId) (resub : Option CallId) (cbThrows : Bool) : Event
  | tick : Event
  deriving DecidableEq, Repr

/-- The tail of the intercepting callback after `cb` returns normally
(src/lib/utils/throttle/index.js lines 43-48): decrement `running` and, if
the queue is non-empty, shift the oldest call off and hand it to
process.nextTick. -/
def finishNormal (s : State) : State :=
  match s.queue with
  | [] => { s with running := s.running - 1 }
  | q :: qs => { s with running := s.running - 1, queue := qs,
                        pending := s.pending ++ [q] }

/-- One step of the throttle semantics, transcribing the intercepting
callback of src/lib/utils/throttle/index.js lines 37-49: `cb(err, val)` runs
first (observing the still-undecremented `running`, and possibly submitting
a new call itself), then `running` is decremented, then if the queue is
non-empty the oldest call is shifted off and handed to process.nextTick.
If `cb` throws, the decrement and the dequeue never happen. -/
def step (s : State) (e : Event) : State :=
  match e with
  | .submit c => runCall s c
  | .tick =>
    match s.pending with
    | [] => s
    | c :: rest => runCall { s with pending := rest } c
  | .complete c resub cbThrows =>
    if c ∈ s.inflight then
      let obs := s.running
      let s1 := { s with inflight := s.inflight.erase c }
      let s2 := match resub with
        | some d => runCall s1 d
        | none => s1
      if cbThrows then
        { s2 with log := s2.log ++ [(obs, s2.running)] }
      else
        finishNormal { s2 with log := s2.log ++ [(obs, s2.running - 1)] }
    else s

/-- Run a list of events from a state. -/
def exec (s : State) (es : List Event) : State :=
  es.foldl step s

/-- An event is quiet when it submits no new call to the wrapper: any tick,
and any completion whose caller callback performs no synchronous
resubmission. -/
def Event.quiet : Event → Bool
  | .submit _ => false
  | .complete _ none _ => true
  | .complete _ (some _) _ => false
  | .tick => true

/-- The closure state reached after the wrapper is invoked once for each of
`cs`, starting idle: the first `max` calls run, the rest sit in the queue. -/
def afterSubmits (M : Nat) (cs : List CallId) : State :=
  { max := M, running := min cs.length M, queue := cs.drop M, pending := [],
    inflight := cs.take M, started := cs.take M, log := [] }

/-- Invariant carried across quiet events: the limit is fixed; running calls
plus nextTick-scheduled calls never exceed the limit; at most `running`
completions are outstanding; and the calls queued at the start of the quiet
phase (`Q0`) split into the already-started ones (`done`, extending the
start order `S0`), the nextTick-scheduled ones, and the still-queued ones,
in that order. -/
def QuietInv (M : Nat) (S0 Q0 : List CallId) (s : State) : Prop :=
  s.max = M ∧
  s.running + s.pending.length ≤ M ∧
  s.inflight.length ≤ s.running ∧
  ∃ done, s.started = S0 ++ done ∧ Q0 = done ++ s.pending ++ s.queue

end Throttle

/-! ## Named functions, nbind and collection wrapping

Both modules share the same collection-wrapping shape:
`extend(isFunction(fn) ? wrapfn(fn, ...) : \x7b\x7d, object(pairs(fn)),
object(map(functions(fn), (k) => [k, wrapfn(nbind(fn, k), ...)])))` —
all members are copied, then each callable member is overridden by a wrapped
form of the member bound to the collection. -/

/-- The name-carrying part of a JavaScript function: its intrinsic `name`
and the library's own `fname` property, either of which may be undefined. -/
structure NamedFn where
  name : Option String
  fname : Option String
  deriving DecidableEq, Repr

/-- JavaScript truthiness of a string-or-undefined: undefined and the empty
string are falsy. -/
def truthyS : Option String → Bool
  | none => false
  | some s => s != ""

/-- JavaScript `a || b` on string-or-undefined values: `a` when truthy,
otherwise `b` (whatever `b` is). -/
def jsOr (a b : Option String) : Option String :=
  if truthyS a then a else b

/-- The owner part of nbind's name computation:
`o.name || o.fname ? (o.name || o.fname) + '.' : ''`. -/
def ownerDot (o : NamedFn) : String :=
  match jsOr o.name o.fname with
  | some n => if n != "" then n ++ "." else ""
  | none => ""

/-- The member part of nbind's name computation:
`o[k].name || o[k].fname || k`. -/
def memberPart (m : NamedFn) (k : String) : String :=
  match jsOr m.name m.fname with
  | some n => if n != "" then n else k
  | none => k

/-- `nbind(o, k)`: bind member `k` of collection `o` while attaching the
diagnostic name.  The bound closure itself is anonymous; the attached
`fname` is `(ownerName + '.' or '') + memberName`. -/
def nbind (o : NamedFn) (k : String) (m : NamedFn) : NamedFn :=
  { name := none, fname := some (ownerDot o ++ memberPart m k) }

/-- The statically observable part of a wrapper returned by `throttlefn` or
`retryfn`: the diagnostic `fname` exposed on the wrapper function and the
function it closes over. -/
structure Wrapper where
  fname : Option String
  inner : NamedFn
  deriving DecidableEq, Repr

/-- `throttlefn` returns an anonymous closure and attaches no `fname` to it
(src/lib/utils/throttle/index.js line 52). -/
def throttlefnWrap (f : NamedFn) : Wrapper :=
  { fname := none, inner := f }

/-- `retryfn` computes `const name = fn.fname || fn.name` and stores it on
the wrapper: `wrapper.fname = name` (retry module lines 137 and 172). -/
def retryfnWrap (f : NamedFn) : Wrapper :=
  { fname := jsOr f.fname f.name, inner := f }

/-- A member of a named collection: a callable, or a non-callable value
(modelled as an opaque string payload). -/
inductive Member where
  | fn (f : NamedFn) : Member
  | dataV (v : String) : Member
  deriving DecidableEq, Repr

/-- A member of the wrapped collection. -/
inductive WMember where
  | wrapped (w : Wrapper) : WMember
  | dataV (v : String) : WMember
  deriving DecidableEq, Repr

/-- The collection branch of `throttle` / `retry`, with `o` the collection's
own name fields: every key is kept (from `object(pairs(fn))`), every callable
member is overridden by `wrapOne(nbind(fn, k))` (from
`object(map(functions(fn), ...))` extended over it, keys being distinct in a
JavaScript object), and every non-callable member passes through. -/
def wrapColl (wrapOne : NamedFn → Wrapper) (o : NamedFn)
    (coll : List (String × Member)) : List (String × WMember) :=
  coll.map (fun p => (p.1,
    match p.2 with
    | .fn f => .wrapped (wrapOne (nbind o p.1 f))
    | .dataV v => .dataV v))

/-! ## Dynamics of a throttled collection

`throttle` applies `throttlefn` separately to each callable member, so each
member owns a fresh `running` counter and queue. -/

/-- Per-member throttle states of `throttle(coll, max)`: each callable member
gets its own `throttlefn` closure state; non-callables get none. -/
def collInit (coll : List (String × Member)) (max : Nat) :
    List (String × Option Throttle.State) :=
  coll.map (fun p => (p.1,
    match p.2 with
    | .fn _ => some (Throttle.init max)
    | .dataV _ => none))

/-- Step the member named `k` of a throttled collection by event `e`. -/
def collStep (ms : List (String × Option Throttle.State)) (k : String)
    (e : Throttle.Event) : List (String × Option Throttle.State) :=
  ms.map (fun q => if q.1 = k then (q.1, q.2.map (fun st => Throttle.step st e)) else q)

/-- Run a list of member-targeted events over a throttled collection. -/
def collExec (ms : List (String × Option Throttle.State))
    (es : List (String × Throttle.Event)) : List (String × Option Throttle.State) :=
  es.foldl (fun m p => collStep m p.1 p.2) ms

/-- Combined number of in-flight executions across all members of a
throttled collection. -/
def combinedRunning (ms : List (String × Option Throttle.State)) : Nat :=
  (ms.map (fun q => match q.2 with | some st => st.running | none => 0)).sum

/-- Every member state of a throttled collection respects the shared limit
`M` as its own bound. -/
def MemberInv (M : Nat) (ms : List (String × Option Throttle.State)) : Prop :=
  ∀ k st, (k, some st) ∈ ms → st.running ≤ M ∧ st.max = M

namespace Retry

/-- Retry configuration as handed to the external retry operation, built by
the retry module's `options` function. -/
structure Opts where
  retries : Nat
  minTimeout : ℚ
  maxTimeout : ℚ
  factor : ℚ
  randomize : Bool
  deriving DecidableEq, Repr

/-- The retry module's `options(retries, min, max, factor, random)`:
each field independently defaults when the argument is undefined
(`def(v, d) = v === undefined ? d : v`), to retries 5, minTimeout 50,
maxTimeout 500, factor 2, randomize true. -/
def options (retries : Option Nat) (mn mx factor : Option ℚ) (random : Option Bool) :
    Opts :=
  { retries := retries.getD 5, minTimeout := mn.getD 50, maxTimeout := mx.getD 500,
    factor := factor.getD 2, randomize := random.getD true }

/-- The attempt loop of `retryfn`'s wrapper: the application function is
called with an intercepting callback; on error, while retries remain the
operation retries (`op.retry(err)`), and once exhausted the wrapper calls the
caller back with the first recorded error (`op.errors()[0]`) and the last
attempt's value (`cb(err ? op.errors()[0] : undefined, val)`); on success it
calls back with no error and the value.  `attempt k` gives attempt `k`'s
callback arguments; `left` is the remaining retry budget; `firstErr`
accumulates the first recorded error.  The retry operation itself
(`_retry.operation`) is the external node-retry dependency; its
attempt-counting contract is modelled from the spec (total attempts equal
retries + 1). -/
def retryGo {ε ν : Type} (attempt : Nat → Option ε × ν) :
    Nat → Nat → Option ε → Nat × Option ε × ν
  | k, left, firstErr =>
    match attempt k with
    | (none, v) => (k + 1, none, v)
    | (some e, v) =>
      match left with
      | 0 => (k + 1, some (firstErr.getD e), v)
      | l + 1 => retryGo attempt (k + 1) l (some (firstErr.getD e))

/-- One logical invocation of a `retryfn`-wrapped function with retry budget
`r`: returns the number of times the wrapped function was invoked and the
single (error, value) pair delivered to the caller's callback. -/
def retryCall {ε ν : Type} (attempt : Nat → Option ε × ν) (r : Nat) :
    Nat × Option ε × ν :=
  retryGo attempt 0 r none

/-- Modelled from the spec: the backoff delay computed by the external
node-retry module, which is not part of this repository.  Per spec section
4.2, the delay before attempt `k` (k ≥ 1) is
`min(maxDelay, minDelay * factor ^ (k - 1))`. -/
def backoffDelay (o : Opts) (k : Nat) : ℚ :=
  min o.maxTimeout (o.minTimeout * o.factor ^ (k - 1))

/-- Modelled from the spec: the actual wait inserted before attempt `k`.
Attempt 0 runs with no preceding delay; with `randomize` false the wait is
exactly `backoffDelay`; with `randomize` true it is a draw from the closed
interval `[0, backoffDelay]`, represented by a draw parameter `u ∈ [0, 1]`
scaling the delay. -/
def attemptWait (o : Opts) (k : Nat) (u : ℚ) : ℚ :=
  if k = 0 then 0
  else if o.randomize then u * backoffDelay o k
  else backoffDelay o k

end Retry

namespace Router

/-- An error value flowing through the router: its optional `status` and
`statusCode` fields (when present these are HTTP status codes, hence
nonzero, so JavaScript truthiness of the field coincides with presence), the
`bailout` flag the router may set, and an opaque identity tag. -/
structure JErr where
  status : Option Int := none
  statusCode : Option Int := none
  bailout : Bool := false
  tag : Nat := 0
  deriving DecidableEq, Repr

/-- Truthiness of an optional numeric field such as `err.status`. -/
def statusTruthy : Option Int → Bool
  | none => false
  | some n => n != 0

/-- The router's `error(err, type)` helper (src/lib/utils/router/index.js
lines 37-42) and the identical rule in `catchall` (lines 105-106): if the
router is untrusted and the error carries no truthy status or statusCode,
set the bailout flag on it. -/
def setBailout (trusted : Bool) (e : JErr) : JErr :=
  if !trusted && !statusTruthy e.status && !statusTruthy e.statusCode then
    { e with bailout := true }
  else e

/-- Observable behavior of one adapted handler on one request, under the
spec's calling convention (section 6: the completion callback is invoked
exactly once): either the handler throws synchronously before completing, or
it completes exactly once through its callback with an optional error and a
value. -/
inductive HandlerOutcome where
  | throws (e : JErr) : HandlerOutcome
  | completes (err : Option JErr) (value : JVal) : HandlerOutcome
  deriving DecidableEq, Repr

/-- The error a handler outcome reports, if any. -/
def HandlerOutcome.errorOf : HandlerOutcome → Option JErr
  | .throws e => some e
  | .completes err _ => err

/-- Observable effects of the adapted middleware on one request: the value
stored on the response object, and the arguments of each `next` call in
order. -/
structure MwResult where
  resValue : Option JVal
  nextCalls : List (Option JErr)
  deriving DecidableEq, Repr

/-- The middleware produced by `callbackify(m, trusted)`
(src/lib/utils/router/index.js lines 29-61), as a function of the handler's
outcome: a synchronous throw is caught and routed through `error`; a
callback error is routed through `error`; a truthy completion value is
stored in `res.value` followed by `next()`; otherwise nothing happens. -/
def callbackify (trusted : Bool) (h : HandlerOutcome) : MwResult :=
  match h with
  | .throws e => { resValue := none, nextCalls := [some (setBailout trusted e)] }
  | .completes (some e) _ =>
    { resValue := none, nextCalls := [some (setBailout trusted e)] }
  | .completes none v =>
    if v.truthy then { resValue := some v, nextCalls := [none] }
    else { resValue := none, nextCalls := [] }

/-- The `catchall(trusted)` fault-scope middleware, as a function of an
error escaping the request's domain (src/lib/utils/router/index.js lines
95-119): apply the bailout rule and deliver the error to `next` once. -/
def catchall (trusted : Bool) (e : JErr) : List (Option JErr) :=
  [some (setBailout trusted e)]

end Router

/-! ## Theorems -/

namespace Throttle

theorem runCall_max (s : State) (c : CallId) : (runCall s c).max = s.max := by
  unfold runCall
  split <;> rfl

theorem runCall_running_le {s : State} (c : CallId) (h : s.running ≤ s.max) :
    (runCall s c).running ≤ s.max := by
  unfold runCall
  split
  · exact h
  · next hne => show s.running + 1 ≤ s.max; omega

theorem runCall_running (s : State) (c : CallId) :
    (runCall s c).running = s.running ∨ (runCall s c).running = s.running + 1 := by
  unfold runCall
  split
  · exact Or.inl rfl
  · exact Or.inr rfl

theorem finishNormal_max (s : State) : (finishNormal s).max = s.max := by
  unfold finishNormal
  split <;> rfl

theorem finishNormal_running (s : State) :
    (finishNormal s).running = s.running - 1 := by
  unfold finishNormal
  split <;> rfl

theorem step_max (s : State) (e : Event) : (step s e).max = s.max := by
  unfold step
  cases e with
  | submit c => exact runCall_max s c
  | tick =>
    cases hp : s.pending with
    | nil => rfl
    | cons c rest => exact runCall_max _ c
  | complete c resub cbThrows =>
    dsimp only
    split
    · cases resub with
      | none =>
        cases cbThrows with
        | true => simp
        | false => simp [finishNormal_max]
      | some d =>
        cases cbThrows with
        | true => simp [runCall_max]
        | false => simp [finishNormal_max, runCall_max]
    · rfl

theorem step_running_le {s : State} (e : Event) (h : s.running ≤ s.max) :
    (step s e).running ≤ s.max := by
  unfold step
  cases e with
  | submit c => exact runCall_running_le c h
  | tick =>
    cases hp : s.pending with
    | nil => exact h
    | cons c rest => exact runCall_running_le (s := { s with pending := rest }) c h
  | complete c resub cbThrows =>
    dsimp only
    split
    · cases resub with
      | none =>
        cases cbThrows with
        | true => simpa using h
        | false =>
          simp only [Bool.false_eq_true, if_false, finishNormal_running]
          omega
      | some d =>
        have h2 := runCall_running_le (s := { s with inflight := s.inflight.erase c }) d h
        cases cbThrows with
        | true => simpa using h2
        | false =>
          simp only [Bool.false_eq_true, if_false, finishNormal_running]
          simp only [] at h2 ⊢
          omega
    · exact h

theorem exec_running_le (M : Nat) (es : List Event) {s : State}
    (hmax : s.max = M) (h : s.running ≤ M) :
    (exec s es).running ≤ M := by
  induction es generalizing s with
  | nil => exact h
  | cons e es ih =>
    show (exec (step s e) es).running ≤ M
    have hs : s.running ≤ s.max := by rw [hmax]; exact h
    have h2 := step_running_le (s := s) e hs
    rw [hmax] at h2
    exact ih (by rw [step_max, hmax]) h2

theorem finishNormal_nil (s : State) (h : s.queue = []) :
    finishNormal s = { s with running := s.running - 1 } := by
  unfold finishNormal
  split
  · rfl
  · next q qs hq => rw [h] at hq; cases hq

theorem finishNormal_cons (s : State) (q : CallId) (qs : List CallId)
    (h : s.queue = q :: qs) :
    finishNormal s = { s with running := s.running - 1, queue := qs,
                              pending := s.pending ++ [q] } := by
  unfold finishNormal
  split
  · next hq => rw [h] at hq; cases hq
  · next q' qs' hq =>
    rw [h] at hq
    cases hq
    rfl

theorem step_complete_normal (s : State) (c : CallId) (hc : c ∈ s.inflight) :
    step s (.complete c none false) =
      finishNormal { s with inflight := s.inflight.erase c,
                            log := s.log ++ [(s.running, s.running - 1)] } := by
  unfold step
  simp [hc]

theorem step_complete_throw (s : State) (c : CallId) (hc : c ∈ s.inflight) :
    step s (.complete c none true) =
      { s with inflight := s.inflight.erase c,
               log := s.log ++ [(s.running, s.running)] } := by
  unfold step
  simp [hc]

theorem quiet_step {M : Nat} {S0 Q0 : List CallId} {s : State} {e : Event}
    (hq : e.quiet = true) (h : QuietInv M S0 Q0 s) : QuietInv M S0 Q0 (step s e) := by
  obtain ⟨hmax, hsum, hinf, done, hst, hq0⟩ := h
  cases e with
  | submit c => simp [Event.quiet] at hq
  | tick =>
    cases hp : s.pending with
    | nil =>
      have hstep : step s .tick = s := by
        show (match s.pending with
              | [] => s
              | c' :: rest' => runCall { s with pending := rest' } c') = _
        rw [hp]
      rw [hstep]
      exact ⟨hmax, hsum, hinf, done, hst, hq0⟩
    | cons c rest =>
      have hstep : step s .tick = runCall { s with pending := rest } c := by
        show (match s.pending with
              | [] => s
              | c' :: rest' => runCall { s with pending := rest' } c') = _
        rw [hp]
      rw [hp] at hsum
      simp at hsum
      rw [hstep]
      unfold runCall
      split
      · next hEq =>
        exfalso
        have hEq' : s.running = s.max := hEq
        omega
      · next hNe =>
        refine ⟨hmax, ?_, ?_, done ++ [c], ?_, ?_⟩
        · show s.running + 1 + rest.length ≤ M
          omega
        · show (s.inflight ++ [c]).length ≤ s.running + 1
          simp
          omega
        · show s.started ++ [c] = S0 ++ (done ++ [c])
          rw [hst, List.append_assoc]
        · show Q0 = (done ++ [c]) ++ rest ++ s.queue
          rw [hq0, hp]
          simp
  | complete c resub cbThrows =>
    cases resub with
    | some d => simp [Event.quiet] at hq
    | none =>
      by_cases hc : c ∈ s.inflight
      · have hrun : 1 ≤ s.running := by
          have : 1 ≤ s.inflight.length := List.length_pos.mpr (List.ne_nil_of_mem hc)
          omega
        have herase : (s.inflight.erase c).length = s.inflight.length - 1 :=
          List.length_erase_of_mem hc
        cases cbThrows with
        | true =>
          rw [step_complete_throw s c hc]
          exact ⟨hmax, hsum, by simp [herase]; omega, done, hst, hq0⟩
        | false =>
          rw [step_complete_normal s c hc]
          unfold finishNormal
          cases hque : s.queue with
          | nil =>
            refine ⟨hmax, by simp; omega, by simp [herase]; omega, done, by simpa using hst, ?_⟩
            show Q0 = done ++ s.pending ++ []
            rw [hq0, hque]
          | cons q qs =>
            refine ⟨hmax, by simp; omega, by simp [herase]; omega, done, by simpa using hst, ?_⟩
            show Q0 = done ++ (s.pending ++ [q]) ++ qs
            rw [hq0, hque]
            simp
      · have hstep : step s (.complete c none cbThrows) = s := by
          unfold step
          simp [hc]
        rw [hstep]
        exact ⟨hmax, hsum, hinf, done, hst, hq0⟩

theorem exec_submits (M : Nat) (cs : List CallId) :
    exec (init M) (cs.map Event.submit) = afterSubmits M cs := by
  induction cs using List.reverseRecOn with
  | nil =>
    show init M = afterSubmits M []
    unfold init afterSubmits
    simp
  | append_singleton cs c ih =>
    have hstep : exec (init M) ((cs ++ [c]).map Event.submit)
        = runCall (afterSubmits M cs) c := by
      rw [List.map_append]
      show exec (init M) (cs.map Event.submit ++ [c].map Event.submit) = _
      rw [exec, List.foldl_append]
      rw [show List.foldl step (init M) (cs.map Event.submit) = exec (init M) (cs.map Event.submit) from rfl]
      rw [ih]
      rfl
    rw [hstep]
    unfold runCall afterSubmits
    by_cases hlen : M ≤ cs.length
    · have hmin : min cs.length M = M := by omega
      rw [if_pos (by simp [hmin])]
      have hmin' : min (cs ++ [c]).length M = M := by simp; omega
      simp only [hmin, hmin']
      have hdrop : (cs ++ [c]).drop M = cs.drop M ++ [c] := by
        rw [List.drop_append_eq_append_drop]
        have : M - cs.length = 0 := by omega
        rw [this]
        rfl
      have htake : (cs ++ [c]).take M = cs.take M := by
        rw [List.take_append_eq_append_take]
        have : M - cs.length = 0 := by omega
        rw [this]
        simp
      rw [hdrop, htake]
    · have hlt : cs.length < M := by omega
      have hmin : min cs.length M = cs.length := by omega
      rw [if_neg (by simp [hmin]; omega)]
      have hmin' : min (cs ++ [c]).length M = cs.length + 1 := by simp; omega
      simp only [hmin, hmin']
      have hdrop : (cs ++ [c]).drop M = [] := by
        apply List.drop_eq_nil_of_le
        simp
        omega
      have hdrop0 : cs.drop M = [] := List.drop_eq_nil_of_le (by omega)
      have htake : (cs ++ [c]).take M = cs ++ [c] :=
        List.take_of_length_le (by simp; omega)
      have htake0 : cs.take M = cs := List.take_of_length_le (by omega)
      rw [hdrop, hdrop0, htake, htake0]

theorem quiet_exec {M : Nat} {S0 Q0 : List CallId} {s : State} (es : List Event)
    (hq : ∀ e ∈ es, e.quiet = true) (h : QuietInv M S0 Q0 s) :
    QuietInv M S0 Q0 (exec s es) := by
  induction es generalizing s with
  | nil => exact h
  | cons e es ih =>
    show QuietInv M S0 Q0 (exec (step s e) es)
    exact ih (fun e' he' => hq e' (List.mem_cons_of_mem e he'))
      (quiet_step (hq e (List.mem_cons_self e es)) h)

/-- C4 (amended): for every throttled function with limit max ≥ 1, the
running-count never exceeds max along any event trace; and whenever more
than max calls are submitted and no further calls are submitted afterwards
(no external submissions and no resubmissions from completion callbacks),
the excess calls are queued and the queued calls started so far form an
order-preserving prefix of the queue, i.e. queued calls start in exactly
their submission order relative to each other, each moving to the nextTick
queue only when a running call completes.  (The unrestricted claim is
refuted by claim4_fifo_refuted: a call submitted between a completion and
its scheduled tick steals the freed slot, and the dequeued call is pushed
to the back of the queue, overtaken by a later-queued call.) -/
theorem claim4_bound_and_quiet_fifo (M : Nat) (hM : 1 ≤ M) (es : List Event)
    (cs : List CallId) (tail : List Event) (hq : ∀ e ∈ tail, e.quiet = true) :
    (exec (init M) es).running ≤ M ∧
    ∃ done,
      (exec (exec (init M) (cs.map Event.submit)) tail).started = cs.take M ++ done ∧
      cs.drop M = done ++ (exec (exec (init M) (cs.map Event.submit)) tail).pending ++
        (exec (exec (init M) (cs.map Event.submit)) tail).queue := by
  constructor
  · exact exec_running_le M es rfl (Nat.zero_le M)
  · have hinv : QuietInv M (cs.take M) (cs.drop M) (afterSubmits M cs) := by
      unfold afterSubmits
      refine ⟨rfl, ?_, ?_, [], ?_, ?_⟩
      · show min cs.length M + ([] : List CallId).length ≤ M
        simp
      · show (cs.take M).length ≤ min cs.length M
        rw [List.length_take]
        omega
      · simp
      · simp
    have hstart : QuietInv M (cs.take M) (cs.drop M)
        (exec (init M) (cs.map Event.submit)) := by
      rw [exec_submits]
      exact hinv
    have h2 := quiet_exec tail hq hstart
    obtain ⟨_, _, _, done, hst, hq0⟩ := h2
    exact ⟨done, hst, hq0⟩

/-- Witness for claim4_bound_and_quiet_fifo: max 1, calls 1 and 2 submitted
together, then call 1 completes and the tick starts call 2. -/
theorem claim4_witness :
    (exec (init 1) [Event.submit 9]).running ≤ 1 ∧
    ∃ done,
      (exec (exec (init 1) ([1, 2].map Event.submit))
        [Event.complete 1 none false, Event.tick]).started = [1, 2].take 1 ++ done ∧
      [1, 2].drop 1 = done ++
        (exec (exec (init 1) ([1, 2].map Event.submit))
          [Event.complete 1 none false, Event.tick]).pending ++
        (exec (exec (init 1) ([1, 2].map Event.submit))
          [Event.complete 1 none false, Event.tick]).queue :=
  claim4_bound_and_quiet_fifo 1 (by decide) [Event.submit 9] [1, 2]
    [Event.complete 1 none false, Event.tick] (by decide)

/-- C4 counterexample: with max 1, calls 2 and 3 are queued in that order
(queue = [2, 3]); call 1 completes, scheduling call 2 on the nextTick queue;
call 4 is submitted before the tick and takes the freed slot; the tick then
finds the wrapper at capacity and pushes call 2 to the back of the queue,
behind call 3.  Call 3 starts before call 2, although both were queued
excess calls and 2 was submitted first: the start order is [1, 4, 3, 2]. -/
theorem claim4_fifo_refuted :
    (exec (init 1) [Event.submit 1, Event.submit 2, Event.submit 3]).queue = [2, 3] ∧
    (exec (init 1) [Event.submit 1, Event.submit 2, Event.submit 3,
      Event.complete 1 none false, Event.submit 4, Event.tick,
      Event.complete 4 none false, Event.tick, Event.complete 3 none false,
      Event.tick]).started = [1, 4, 3, 2] ∧
    List.indexOf 3 (exec (init 1) [Event.submit 1, Event.submit 2, Event.submit 3,
      Event.complete 1 none false, Event.submit 4, Event.tick,
      Event.complete 4 none false, Event.tick, Event.complete 3 none false,
      Event.tick]).started <
    List.indexOf 2 (exec (init 1) [Event.submit 1, Event.submit 2, Event.submit 3,
      Event.complete 1 none false, Event.submit 4, Event.tick,
      Event.complete 4 none false, Event.tick, Event.complete 3 none false,
      Event.tick]).started := by
  refine ⟨rfl, rfl, ?_⟩
  decide

/-- C7 (amended): on a normal completion the wrapper forwards the original
error/result to the caller's callback while the running-count is still
undecremented (the log records observed count = pre-completion running,
final count = running - 1), then decrements the running-count, and then, if
the queue is non-empty, dequeues the oldest queued call onto the nextTick
queue without starting it synchronously (the started list is unchanged).
The claimed order — decrement before forwarding — is refuted by
claim7_order_refuted. -/
theorem claim7_amended (s : State) (c : CallId) (hc : c ∈ s.inflight) :
    (step s (.complete c none false)).log = s.log ++ [(s.running, s.running - 1)] ∧
    (step s (.complete c none false)).running = s.running - 1 ∧
    (step s (.complete c none false)).started = s.started ∧
    (s.queue = [] → (step s (.complete c none false)).queue = [] ∧
      (step s (.complete c none false)).pending = s.pending) ∧
    ∀ q qs, s.queue = q :: qs → (step s (.complete c none false)).queue = qs ∧
      (step s (.complete c none false)).pending = s.pending ++ [q] := by
  rw [step_complete_normal s c hc]
  cases hque : s.queue with
  | nil =>
    rw [finishNormal_nil _ rfl]
    refine ⟨rfl, rfl, rfl, fun _ => ⟨rfl, rfl⟩, ?_⟩
    intro q qs hcons
    cases hcons
  | cons q qs =>
    rw [finishNormal_cons _ q qs rfl]
    refine ⟨rfl, rfl, rfl, ?_, ?_⟩
    · intro hnil
      cases hnil
    · intro q' qs' hcons
      injection hcons with h1 h2
      subst h1
      subst h2
      exact ⟨rfl, rfl⟩

/-- Witness for claim7_amended: one running call with one queued call; on
completion the log records the undecremented count 1, running drops to 0,
and the queued call moves to the nextTick queue without starting. -/
theorem claim7_witness :
    (step { max := 1, running := 1, queue := [6], pending := [], inflight := [5],
            started := [5], log := [] } (.complete 5 none false)).log = [(1, 0)] ∧
    (step { max := 1, running := 1, queue := [6], pending := [], inflight := [5],
            started := [5], log := [] } (.complete 5 none false)).running = 0 ∧
    (step { max := 1, running := 1, queue := [6], pending := [], inflight := [5],
            started := [5], log := [] } (.complete 5 none false)).pending = [6] ∧
    (step { max := 1, running := 1, queue := [6], pending := [], inflight := [5],
            started := [5], log := [] } (.complete 5 none false)).started = [5] := by
  have h := claim7_amended
    { max := 1, running := 1, queue := [6], pending := [], inflight := [5],
      started := [5], log := [] } 5 (by decide)
  exact ⟨by simpa using h.1, by simpa using h.2.1,
    by simpa using (h.2.2.2.2 6 [] rfl).2, by simpa using h.2.2.1⟩

/-- C7 counterexample: the claim says the wrapper decrements the
running-count before forwarding to the caller's callback, which would make
the count observed at callback time equal the post-completion count.  With
max 1 and a single completed call the log records observation 1 against
final count 0. -/
theorem claim7_order_refuted :
    (exec (init 1) [Event.submit 5, Event.complete 5 none false]).log = [(1, 0)] ∧
    ¬ ∀ p ∈ (exec (init 1) [Event.submit 5, Event.complete 5 none false]).log,
        p.1 = p.2 := by
  refine ⟨rfl, ?_⟩
  decide

/-- C9: when the caller's completion callback throws, the wrapper's
decrement and dequeue are skipped (they come after `cb(err, val)` in the
intercepting callback): the running-count, queue, nextTick queue and start
order are all unchanged, the completed call can never complete again, and
if the wrapper was at capacity a subsequent submission is still queued —
the slot is permanently lost to all later calls. -/
theorem claim9_cb_throw_leaks_slot (s : State) (c d : CallId) (hc : c ∈ s.inflight) :
    (step s (.complete c none true)).running = s.running ∧
    (step s (.complete c none true)).queue = s.queue ∧
    (step s (.complete c none true)).pending = s.pending ∧
    (step s (.complete c none true)).started = s.started ∧
    (step s (.complete c none true)).inflight = s.inflight.erase c ∧
    (s.running = s.max →
      (step (step s (.complete c none true)) (.submit d)).queue = s.queue ++ [d] ∧
      (step (step s (.complete c none true)) (.submit d)).running = s.running) := by
  rw [step_complete_throw s c hc]
  refine ⟨rfl, rfl, rfl, rfl, rfl, fun hm => ?_⟩
  show (runCall _ d).queue = s.queue ++ [d] ∧ (runCall _ d).running = s.running
  unfold runCall
  split
  · exact ⟨rfl, rfl⟩
  · next hne => exact absurd hm hne

/-- Witness for claim9_cb_throw_leaks_slot: a full wrapper (max 1, one
running call) whose caller callback throws on completion: running stays 1,
and a later submission is queued behind the stale count. -/
theorem claim9_witness :
    (step { max := 1, running := 1, queue := [6], pending := [], inflight := [5],
            started := [5], log := [] } (.complete 5 none true)).running = 1 ∧
    (step (step { max := 1, running := 1, queue := [6], pending := [],
                  inflight := [5], started := [5], log := [] }
      (.complete 5 none true)) (.submit 7)).queue = [6, 7] := by
  have h := claim9_cb_throw_leaks_slot
    { max := 1, running := 1, queue := [6], pending := [], inflight := [5],
      started := [5], log := [] } 5 7 (by decide)
  exact ⟨by simpa using h.1, by simpa using (h.2.2.2.2.2 rfl).1⟩

end Throttle

/-! ## Collection wrapping theorems -/

theorem collStep_memberInv {M : Nat} {ms : List (String × Option Throttle.State)}
    (k : String) (e : Throttle.Event) (h : MemberInv M ms) :
    MemberInv M (collStep ms k e) := by
  intro k' st' hmem
  unfold collStep at hmem
  obtain ⟨⟨k0, st0⟩, hq, heq⟩ := List.mem_map.mp hmem
  by_cases hk : k0 = k
  · rw [if_pos hk] at heq
    have hk' : k0 = k' := congrArg Prod.fst heq
    have hopt : st0.map (fun st => Throttle.step st e) = some st' :=
      congrArg Prod.snd heq
    obtain ⟨st1, hst1, hstep⟩ := Option.map_eq_some'.mp hopt
    subst hst1
    obtain ⟨hrun, hmaxeq⟩ := h k0 st1 hq
    subst hstep
    constructor
    · have := Throttle.step_running_le (s := st1) e (by omega)
      omega
    · rw [Throttle.step_max, hmaxeq]
  · rw [if_neg hk] at heq
    exact h k' st' (heq ▸ hq)

theorem collExec_memberInv {M : Nat} {ms : List (String × Option Throttle.State)}
    (es : List (String × Throttle.Event)) (h : MemberInv M ms) :
    MemberInv M (collExec ms es) := by
  induction es generalizing ms with
  | nil => exact h
  | cons p es ih =>
    show MemberInv M (collExec (collStep ms p.1 p.2) es)
    exact ih (collStep_memberInv p.1 p.2 h)

theorem collInit_memberInv (coll : List (String × Member)) (M : Nat) :
    MemberInv M (collInit coll M) := by
  intro k st hmem
  unfold collInit at hmem
  obtain ⟨⟨k0, m⟩, hq, heq⟩ := List.mem_map.mp hmem
  cases m with
  | fn f =>
    have : (k0, some (Throttle.init M)) = (k, some st) := heq
    have hst : Throttle.init M = st := by
      have := congrArg Prod.snd this
      simpa using this
    subst hst
    exact ⟨Nat.zero_le M, rfl⟩
  | dataV v =>
    have : (k0, (none : Option Throttle.State)) = (k, some st) := heq
    have := congrArg Prod.snd this
    simp at this

theorem wrapColl_keys (wrapOne : NamedFn → Wrapper) (o : NamedFn)
    (coll : List (String × Member)) :
    (wrapColl wrapOne o coll).map Prod.fst = coll.map Prod.fst := by
  unfold wrapColl
  rw [List.map_map]
  rfl

theorem wrapColl_dataV (wrapOne : NamedFn → Wrapper) (o : NamedFn)
    {coll : List (String × Member)} {k : String} {v : String}
    (h : (k, Member.dataV v) ∈ coll) :
    (k, WMember.dataV v) ∈ wrapColl wrapOne o coll :=
  List.mem_map.mpr ⟨(k, Member.dataV v), h, rfl⟩

theorem jsOr_some_none {s : String} (h : s ≠ "") : jsOr (some s) none = some s := by
  unfold jsOr
  have ht : truthyS (some s) = true := by
    unfold truthyS
    simp [h]
  rw [ht]
  simp

/-- C1 (amended): every callable member of a collection passed to
`throttle(fn, max)` is individually throttled under its own fresh
running-counter with the shared limit max — along any trace of
member-targeted events no member's running-count ever exceeds max — and the
result is same-shaped: every name is kept and non-callable members appear
unchanged.  The counter is per-member, not shared: the combined in-flight
count across members can exceed max (claim1_shared_counter_refuted). -/
theorem claim1_per_member_bound (own : NamedFn) (coll : List (String × Member))
    (M : Nat) (es : List (String × Throttle.Event)) (k : String)
    (st : Throttle.State)
    (hst : (k, some st) ∈ collExec (collInit coll M) es) :
    st.running ≤ M ∧
    (wrapColl throttlefnWrap own coll).map Prod.fst = coll.map Prod.fst ∧
    ∀ k' v, (k', Member.dataV v) ∈ coll →
      (k', WMember.dataV v) ∈ wrapColl throttlefnWrap own coll := by
  refine ⟨(collExec_memberInv es (collInit_memberInv coll M) k st hst).1, ?_, ?_⟩
  · exact wrapColl_keys throttlefnWrap own coll
  · intro k' v hmem
    exact wrapColl_dataV throttlefnWrap own hmem

/-- Witness for claim1_per_member_bound: a collection with two callables and
one data member, max 1, one call submitted to member f. -/
theorem claim1_witness :
    ({ max := 1, running := 1, queue := [], pending := [], inflight := [0],
       started := [0], log := [] } : Throttle.State).running ≤ 1 ∧
    (wrapColl throttlefnWrap ⟨none, none⟩
      [("f", Member.fn ⟨none, none⟩), ("g", Member.fn ⟨none, none⟩),
       ("d", Member.dataV "x")]).map Prod.fst =
      [("f", Member.fn ⟨none, none⟩), ("g", Member.fn ⟨none, none⟩),
       ("d", Member.dataV "x")].map Prod.fst ∧
    ∀ k' v, (k', Member.dataV v) ∈
        [("f", Member.fn ⟨none, none⟩), ("g", Member.fn ⟨none, none⟩),
         ("d", Member.dataV "x")] →
      (k', WMember.dataV v) ∈ wrapColl throttlefnWrap ⟨none, none⟩
        [("f", Member.fn ⟨none, none⟩), ("g", Member.fn ⟨none, none⟩),
         ("d", Member.dataV "x")] :=
  claim1_per_member_bound ⟨none, none⟩
    [("f", Member.fn ⟨none, none⟩), ("g", Member.fn ⟨none, none⟩),
     ("d", Member.dataV "x")] 1 [("f", Throttle.Event.submit 0)] "f"
    { max := 1, running := 1, queue := [], pending := [], inflight := [0],
      started := [0], log := [] } (by decide)

/-- C1 counterexample: a collection of two callables wrapped by
`throttle(fn, 1)`: submitting one call to each member leaves both running at
once — the combined in-flight count is 2, exceeding the limit 1, because
each member owns a separate counter rather than sharing one. -/
theorem claim1_shared_counter_refuted :
    combinedRunning (collExec (collInit
      [("f", Member.fn ⟨none, none⟩), ("g", Member.fn ⟨none, none⟩)] 1)
      [("f", Throttle.Event.submit 0), ("g", Throttle.Event.submit 1)]) = 2 ∧
    ¬(2 ≤ 1) := by
  exact ⟨by decide, by decide⟩

/-- C8 (amended): wrapping a named collection with throttle or retry keeps
every name and passes non-callable entries through unchanged; a
retry-wrapped callable carries the diagnostic name computed by nbind
(ownerName.memberName, falling back to the member's own name or its key),
but a throttle-wrapped callable carries no diagnostic name at all — the
name lives only on the internal bound function that throttlefn closes over
(claim8_throttle_name_refuted). -/
theorem claim8_names_amended (own : NamedFn) (coll : List (String × Member))
    (k : String) (f : NamedFn) (hf : (k, Member.fn f) ∈ coll)
    (hne : ownerDot own ++ memberPart f k ≠ "") :
    (wrapColl retryfnWrap own coll).map Prod.fst = coll.map Prod.fst ∧
    (wrapColl throttlefnWrap own coll).map Prod.fst = coll.map Prod.fst ∧
    (∀ k' v, (k', Member.dataV v) ∈ coll →
      (k', WMember.dataV v) ∈ wrapColl retryfnWrap own coll ∧
      (k', WMember.dataV v) ∈ wrapColl throttlefnWrap own coll) ∧
    (k, WMember.wrapped { fname := some (ownerDot own ++ memberPart f k),
                          inner := nbind own k f }) ∈ wrapColl retryfnWrap own coll ∧
    (k, WMember.wrapped { fname := none, inner := nbind own k f }) ∈
      wrapColl throttlefnWrap own coll := by
  refine ⟨wrapColl_keys retryfnWrap own coll, wrapColl_keys throttlefnWrap own coll,
    fun k' v hmem => ⟨wrapColl_dataV retryfnWrap own hmem,
      wrapColl_dataV throttlefnWrap own hmem⟩, ?_, ?_⟩
  · refine List.mem_map.mpr ⟨(k, Member.fn f), hf, ?_⟩
    show (k, WMember.wrapped (retryfnWrap (nbind own k f))) = _
    have : retryfnWrap (nbind own k f) =
        { fname := some (ownerDot own ++ memberPart f k), inner := nbind own k f } := by
      unfold retryfnWrap nbind
      rw [show ({ name := none, fname := some (ownerDot own ++ memberPart f k) }
          : NamedFn).fname = some (ownerDot own ++ memberPart f k) from rfl]
      rw [jsOr_some_none hne]
    rw [this]
  · exact List.mem_map.mpr ⟨(k, Member.fn f), hf, rfl⟩

/-- Witness for claim8_names_amended: a collection with a named callable f
and a data member, wrapped under an anonymous owner. -/
theorem claim8_witness :
    (wrapColl retryfnWrap ⟨none, none⟩
      [("f", Member.fn ⟨some "f", none⟩), ("d", Member.dataV "x")]).map Prod.fst =
      [("f", Member.fn ⟨some "f", none⟩), ("d", Member.dataV "x")].map Prod.fst ∧
    (wrapColl throttlefnWrap ⟨none, none⟩
      [("f", Member.fn ⟨some "f", none⟩), ("d", Member.dataV "x")]).map Prod.fst =
      [("f", Member.fn ⟨some "f", none⟩), ("d", Member.dataV "x")].map Prod.fst ∧
    (∀ k' v, (k', Member.dataV v) ∈
        [("f", Member.fn ⟨some "f", none⟩), ("d", Member.dataV "x")] →
      (k', WMember.dataV v) ∈ wrapColl retryfnWrap ⟨none, none⟩
        [("f", Member.fn ⟨some "f", none⟩), ("d", Member.dataV "x")] ∧
      (k', WMember.dataV v) ∈ wrapColl throttlefnWrap ⟨none, none⟩
        [("f", Member.fn ⟨some "f", none⟩), ("d", Member.dataV "x")]) ∧
    ("f", WMember.wrapped { fname := some (ownerDot ⟨none, none⟩ ++
                              memberPart ⟨some "f", none⟩ "f"),
                            inner := nbind ⟨none, none⟩ "f" ⟨some "f", none⟩ }) ∈
      wrapColl retryfnWrap ⟨none, none⟩
        [("f", Member.fn ⟨some "f", none⟩), ("d", Member.dataV "x")] ∧
    ("f", WMember.wrapped { fname := none,
                            inner := nbind ⟨none, none⟩ "f" ⟨some "f", none⟩ }) ∈
      wrapColl throttlefnWrap ⟨none, none⟩
        [("f", Member.fn ⟨some "f", none⟩), ("d", Member.dataV "x")] :=
  claim8_names_amended ⟨none, none⟩
    [("f", Member.fn ⟨some "f", none⟩), ("d", Member.dataV "x")] "f"
    ⟨some "f", none⟩ (by decide) (by decide)

/-! ## Retry theorems -/

theorem retryGo_allfail {ε ν : Type} (ef : Nat → ε) (vf : Nat → ν) :
    ∀ (left k : Nat) (firstErr : Option ε),
      Retry.retryGo (fun i => (some (ef i), vf i)) k left firstErr =
        (k + left + 1, some (firstErr.getD (ef k)), vf (k + left)) := by
  intro left
  induction left with
  | zero =>
    intro k firstErr
    unfold Retry.retryGo
    simp
  | succ l ih =>
    intro k firstErr
    unfold Retry.retryGo
    simp only []
    rw [ih (k + 1) (some (firstErr.getD (ef k)))]
    have h1 : k + 1 + l = k + (l + 1) := by omega
    rw [h1]
    simp

/-- C2 (amended): a `retryfn`-wrapped function whose every attempt fails is
invoked exactly retries + 1 times, and the caller's callback is then invoked
exactly once with the error recorded on attempt 0 (the first error, not the
most recent) together with the final attempt's value — the code forwards
`val` unconditionally (`cb(err ? op.errors()[0] : undefined, val)`), so the
result is absent only when the failing attempts pass no value
(claim2_result_value_refuted shows a failing function whose value is
forwarded alongside the first error). -/
theorem claim2_first_error_and_count {ε ν : Type} (ef : Nat → ε) (vf : Nat → ν)
    (r : Nat) :
    Retry.retryCall (fun i => (some (ef i), vf i)) r = (r + 1, some (ef 0), vf r) := by
  unfold Retry.retryCall
  rw [retryGo_allfail ef vf r 0 none]
  simp

/-- C2 counterexample: a function failing on every attempt with error k and
value 42 under retries = 1: the wrapper invokes it twice and calls back with
the first error AND the value 42 — not with no result value as claimed. -/
theorem claim2_result_value_refuted :
    Retry.retryCall (fun i => ((some i : Option Nat), (some 42 : Option Nat))) 1 =
      (2, some 0, some 42) ∧ (some 42 : Option Nat) ≠ none := by
  exact ⟨rfl, by decide⟩

/-- C6: attempt 0 runs with no preceding delay; with randomize false the
wait before attempt k (k ≥ 1) is exactly min(maxDelay, minDelay *
factor ^ (k - 1)) and never less; with randomize true the wait is a draw
from the closed interval [0, that same value].  The repository's `options`
supplies the defaults retries 5, minTimeout 50, maxTimeout 500, factor 2,
randomize true; the backoff arithmetic itself lives in the external
node-retry module and is modelled from the spec. -/
theorem claim6_backoff_delay (o : Retry.Opts) (k : Nat) (u : ℚ)
    (hk : 1 ≤ k) (hu0 : 0 ≤ u) (hu1 : u ≤ 1)
    (hmin : 0 ≤ o.minTimeout) (hmax : 0 ≤ o.maxTimeout) (hfac : 0 ≤ o.factor) :
    Retry.attemptWait o 0 u = 0 ∧
    (o.randomize = false →
      Retry.attemptWait o k u = min o.maxTimeout (o.minTimeout * o.factor ^ (k - 1))) ∧
    (o.randomize = true →
      0 ≤ Retry.attemptWait o k u ∧
      Retry.attemptWait o k u ≤ min o.maxTimeout (o.minTimeout * o.factor ^ (k - 1))) ∧
    Retry.options none none none none none =
      { retries := 5, minTimeout := 50, maxTimeout := 500, factor := 2,
        randomize := true } := by
  have hk0 : k ≠ 0 := by omega
  have hd : 0 ≤ Retry.backoffDelay o k :=
    le_min hmax (mul_nonneg hmin (pow_nonneg hfac _))
  refine ⟨?_, ?_, ?_, rfl⟩
  · unfold Retry.attemptWait
    simp
  · intro hr
    unfold Retry.attemptWait
    rw [if_neg hk0, hr]
    simp [Retry.backoffDelay]
  · intro hr
    unfold Retry.attemptWait
    rw [if_neg hk0, hr]
    simp only [if_true]
    constructor
    · exact mul_nonneg hu0 hd
    · calc u * Retry.backoffDelay o k
          ≤ 1 * Retry.backoffDelay o k := mul_le_mul_of_nonneg_right hu1 hd
        _ = Retry.backoffDelay o k := one_mul _
        _ = min o.maxTimeout (o.minTimeout * o.factor ^ (k - 1)) := rfl

/-- Witness for claim6_backoff_delay: the default options, attempt 2, draw
parameter 1. -/
theorem claim6_witness :
    Retry.attemptWait (Retry.options none none none none none) 0 1 = 0 ∧
    ((Retry.options none none none none none).randomize = false →
      Retry.attemptWait (Retry.options none none none none none) 2 1 =
        min (Retry.options none none none none none).maxTimeout
          ((Retry.options none none none none none).minTimeout *
            (Retry.options none none none none none).factor ^ (2 - 1))) ∧
    ((Retry.options none none none none none).randomize = true →
      0 ≤ Retry.attemptWait (Retry.options none none none none none) 2 1 ∧
      Retry.attemptWait (Retry.options none none none none none) 2 1 ≤
        min (Retry.options none none none none none).maxTimeout
          ((Retry.options none none none none none).minTimeout *
            (Retry.options none none none none none).factor ^ (2 - 1))) ∧
    Retry.options none none none none none =
      { retries := 5, minTimeout := 50, maxTimeout := 500, factor := 2,
        randomize := true } :=
  claim6_backoff_delay (Retry.options none none none none none) 2 1
    (by decide) (by decide) (by decide) (by decide) (by decide) (by decide)

/-! ## Router theorems -/

theorem setBailout_bailout (trusted : Bool) (e : Router.JErr)
    (hb : e.bailout = false) :
    ((Router.setBailout trusted e).bailout = true ↔
      trusted = false ∧ Router.statusTruthy e.status = false ∧
        Router.statusTruthy e.statusCode = false) := by
  unfold Router.setBailout
  by_cases hc : (!trusted && !Router.statusTruthy e.status &&
      !Router.statusTruthy e.statusCode) = true
  · rw [if_pos hc]
    simp only [Bool.and_eq_true, Bool.not_eq_true'] at hc
    exact iff_of_true rfl ⟨hc.1.1, hc.1.2, hc.2⟩
  · rw [if_neg hc]
    rw [hb]
    simp only [Bool.and_eq_true, Bool.not_eq_true'] at hc
    exact iff_of_false (by simp) (fun h => hc ⟨⟨h.1, h.2.1⟩, h.2.2⟩)

/-- C5: whenever a handler reports an error — by throwing synchronously
before completing, or through its completion callback — the adapted
middleware delivers it to next exactly once (one next call, carrying the
error), stores nothing on the response, and the bailout flag ends up set on
the delivered error if and only if the router is untrusted and the error
has neither a (truthy) status nor statusCode; the catchall fault scope
applies the identical rule, also delivering exactly once; and a trusted
handler's synchronous throw reaches next with the error unchanged — no
bailout flag. -/
theorem claim5_error_delivery (trusted : Bool) (h : Router.HandlerOutcome)
    (e : Router.JErr) (he : h.errorOf = some e) (hb : e.bailout = false) :
    (Router.callbackify trusted h).nextCalls = [some (Router.setBailout trusted e)] ∧
    (Router.callbackify trusted h).resValue = none ∧
    ((Router.setBailout trusted e).bailout = true ↔
      trusted = false ∧ Router.statusTruthy e.status = false ∧
        Router.statusTruthy e.statusCode = false) ∧
    Router.catchall trusted e = [some (Router.setBailout trusted e)] ∧
    (trusted = true → Router.setBailout trusted e = e) := by
  refine ⟨?_, ?_, setBailout_bailout trusted e hb, rfl, ?_⟩
  · cases h with
    | throws e' =>
      have : e' = e := by
        have h1 : some e' = some e := he
        injection h1
      subst this
      rfl
    | completes err v =>
      have : err = some e := he
      subst this
      rfl
  · cases h with
    | throws e' =>
      have : e' = e := by
        have h1 : some e' = some e := he
        injection h1
      subst this
      rfl
    | completes err v =>
      have : err = some e := he
      subst this
      rfl
  · intro ht
    subst ht
    unfold Router.setBailout
    simp

/-- Witness for claim5_error_delivery: a trusted handler throwing a bare
error. -/
theorem claim5_witness :
    (Router.callbackify true (.throws ⟨none, none, false, 0⟩)).nextCalls =
      [some (Router.setBailout true ⟨none, none, false, 0⟩)] ∧
    (Router.callbackify true (.throws ⟨none, none, false, 0⟩)).resValue = none ∧
    ((Router.setBailout true ⟨none, none, false, 0⟩).bailout = true ↔
      true = false ∧ Router.statusTruthy (none : Option Int) = false ∧
        Router.statusTruthy (none : Option Int) = false) ∧
    Router.catchall true ⟨none, none, false, 0⟩ =
      [some (Router.setBailout true ⟨none, none, false, 0⟩)] ∧
    (true = true → Router.setBailout true ⟨none, none, false, 0⟩ =
      ⟨none, none, false, 0⟩) :=
  claim5_error_delivery true (.throws ⟨none, none, false, 0⟩)
    ⟨none, none, false, 0⟩ rfl rfl

/-- C3 (amended): when a handler completes with no error and a truthy
value, the value is stored on the response and next() is called once with
no error; when it completes with no error and a falsy value — including the
no-value (undefined) completion — nothing is stored and next is never
called, so the middleware chain does not continue (the unrestricted claim
is refuted by claim3_no_value_refuted). -/
theorem claim3_value_continuation (trusted : Bool) (v w : JVal)
    (hv : v.truthy = true) (hw : w.truthy = false) :
    Router.callbackify trusted (.completes none v) =
      { resValue := some v, nextCalls := [none] } ∧
    Router.callbackify trusted (.completes none w) =
      { resValue := none, nextCalls := [] } := by
  constructor
  · unfold Router.callbackify
    simp [hv]
  · unfold Router.callbackify
    simp [hw]

/-- Witness for claim3_value_continuation: value 3 is stored and next()
runs; the undefined completion does nothing. -/
theorem claim3_witness :
    Router.callbackify true (.completes none (.num 3)) =
      { resValue := some (.num 3), nextCalls := [none] } ∧
    Router.callbackify true (.completes none .undef) =
      { resValue := none, nextCalls := [] } :=
  claim3_value_continuation true (.num 3) .undef rfl rfl

/-- C3 counterexample: a handler completing successfully with no value: the
adapter stores nothing and never calls next — the claim says next() is
called after every successful completion. -/
theorem claim3_no_value_refuted :
    Router.callbackify true (.completes none .undef) =
      { resValue := none, nextCalls := [] } ∧
    ({ resValue := none, nextCalls := [] } : Router.MwResult) ≠
      { resValue := none, nextCalls := [none] } := by
  exact ⟨rfl, by decide⟩

/-- C10: continuation after a successful completion is decided by the
truthiness of the produced value: for every falsy value (0, empty string,
false, null, undefined) the adapter stores nothing on the response and
never invokes next — exactly the behavior of the no-value (undefined)
completion. -/
theorem claim10_falsy_value (trusted : Bool) (v : JVal) (hv : v.truthy = false) :
    Router.callbackify trusted (.completes none v) =
      { resValue := none, nextCalls := [] } ∧
    Router.callbackify trusted (.completes none .undef) =
      { resValue := none, nextCalls := [] } := by
  constructor
  · unfold Router.callbackify
    simp [hv]
  · unfold Router.callbackify
    simp [JVal.truthy]

/-- Witness for claim10_falsy_value: the empty string is falsy, so an
untrusted handler completing with it never continues the chain. -/
theorem claim10_witness :
    Router.callbackify false (.completes none (.str "")) =
      { resValue := none, nextCalls := [] } ∧
    Router.callbackify false (.completes none .undef) =
      { resValue := none, nextCalls := [] } :=
  claim10_falsy_value false (.str "") rfl

/-- C8 counterexample: `throttle` applied to a collection whose member f has
diagnostic name "f" produces a wrapper carrying no name (`fname` is absent):
`throttlefn` never stores the name on the function it returns, so the
wrapped callable does not retain the original callable's diagnostic name. -/
theorem claim8_throttle_name_refuted :
    wrapColl throttlefnWrap ⟨none, none⟩ [("f", Member.fn ⟨some "f", none⟩)] =
      [("f", WMember.wrapped { fname := none,
                               inner := { name := none, fname := some "f" } })] ∧
    (none : Option String) ≠ some "f" := by
  refine ⟨?_, by decide⟩
  show [("f", WMember.wrapped (throttlefnWrap (nbind ⟨none, none⟩ "f" ⟨some "f", none⟩)))] = _
  decide

end Abacus
